import Mathlib

/-!
# Verification of the WordleHelper constraint-filtering engine

Shallow embedding of `main.py` (class `WordleHelper`): the filter engine
(`find_words` and its helpers), the feedback evaluator (`_compare_words`),
the interactive-mode state update, and the suggestion engine
(`suggest_next_word`).

Modelling conventions:
* a Python string is modelled as its list of characters (`Word`);
* the letter-frequency percentages (floats with two decimals in the source)
  are scaled by 100 to exact integers, so score comparisons are exact;
* Python's `sorted` (a stable sort) is modelled by `List.insertionSort`,
  which computes the same stable sort with respect to the same comparator;
* fallible code returns `Except`/`Option`; randomness (`random.choice`) is
  an injected function argument.
-/

namespace WordleHelper

/-- A word: the character sequence of a Python string. -/
abbrev Word := List Char

/-- Abbreviation turning a string literal into its character list. -/
def wrd (s : String) : Word := s.toList

/-- `LETTER_FREQUENCIES` from the source, each percentage scaled by 100
to an exact integer (for example 10.97 becomes 1097). -/
def LETTER_FREQUENCIES : List (Char × Nat) := [
  ('о', 1097), ('е', 845), ('а', 801), ('и', 735), ('н', 670), ('т', 626),
  ('с', 547), ('р', 473), ('в', 454), ('л', 440), ('к', 349), ('м', 321),
  ('д', 298), ('п', 281), ('у', 262), ('я', 201), ('ы', 190), ('ь', 174),
  ('г', 170), ('з', 165), ('б', 159), ('ч', 144), ('й', 121), ('х', 97),
  ('ж', 94), ('ш', 73), ('ю', 64), ('ц', 48), ('щ', 36), ('э', 32),
  ('ф', 26), ('ъ', 4), ('ё', 4)]

/-- `self.LETTER_FREQUENCIES.get(letter, 0)`: the weight of a letter,
0 for a letter absent from the table. -/
def letterFrequency (c : Char) : Nat :=
  match LETTER_FREQUENCIES.find? (fun p => p.1 == c) with
  | some p => p.2
  | none => 0

/-- `STARTER_WORDS` from the source. -/
def STARTER_WORDS : List Word :=
  [wrd "адрес", wrd "стена", wrd "рейка", wrd "тоска", wrd "ление", wrd "окрас"]

/-- One character of the regex class `[а-яё]` (lower-case Russian letters). -/
def isRuLetter (c : Char) : Bool := ('а' ≤ c && c ≤ 'я') || c == 'ё'

/-- Python `str.lower`, restricted to the characters relevant here: an
upper-case Russian letter maps to its lower-case form, every other
character is left unchanged. -/
def ruLower (c : Char) : Char :=
  if 'А' ≤ c ∧ c ≤ 'Я' then Char.ofNat (c.toNat + 0x20)
  else if c = 'Ё' then 'ё' else c

/-- The errors `_validate_inputs` and `_check_conflicts` can raise.  The
conflict constructors carry the letters named in the error message
(`', '.join(sorted(conflict_set))`). -/
inductive FindError where
  | knownLengthError (n : Nat)
  | knownCharsError
  | unknownCharsError
  | excludedCharsError
  | conflictKnownExcluded (letters : List Char)
  | conflictUnknownExcluded (letters : List Char)
deriving DecidableEq, Repr

/-- `sorted(s)` for a Python set `s` obtained as an intersection:
duplicates removed, then sorted ascending. -/
def sortedSet (l : List Char) : List Char :=
  (l.dedup).insertionSort (fun a b => a ≤ b)

/-- `_validate_inputs` (main.py lines 121-136): `known` must have exactly
5 characters, all of them (after lowering) Russian letters or `_`;
a non-empty `unknown`/`excluded` must consist of Russian letters. -/
def validate_inputs (known unknown excluded : List Char) : Option FindError :=
  if known.length ≠ 5 then some (FindError.knownLengthError known.length)
  else if ¬ (known.map ruLower).all (fun c => isRuLetter c || c == '_') then
    some FindError.knownCharsError
  else if ¬ unknown.isEmpty ∧ ¬ (unknown.map ruLower).all isRuLetter then
    some FindError.unknownCharsError
  else if ¬ excluded.isEmpty ∧ ¬ (excluded.map ruLower).all isRuLetter then
    some FindError.excludedCharsError
  else none

/-- `_check_conflicts` (main.py lines 138-162): first the letters fixed in
`known` against `excluded`, then `unknown` against `excluded`; the overlap
of `known` and `unknown` is deliberately not checked. -/
def check_conflicts (known unknown excluded : List Char) : Option FindError :=
  let known_letters := known.filter (fun c => c ≠ '_')
  let conflicts_excluded := sortedSet (known_letters.filter (fun c => excluded.contains c))
  if ¬ conflicts_excluded.isEmpty then
    some (FindError.conflictKnownExcluded conflicts_excluded)
  else
    let conflicts_both := sortedSet (unknown.filter (fun c => excluded.contains c))
    if ¬ conflicts_both.isEmpty then
      some (FindError.conflictUnknownExcluded conflicts_both)
    else none

/-- The regex built by `_generate_pattern` and applied by
`_filter_words_by_pattern`: `_` becomes `.` (any single character other
than a newline), a letter matches itself, anchored at both ends. -/
def matchesPattern : List Char → List Char → Bool
  | [], [] => true
  | k :: ks, c :: cs =>
      (if k = '_' then c ≠ '\n' else k = c : Bool) && matchesPattern ks cs
  | _, _ => false

/-- `_filter_words_by_pattern` (main.py lines 168-174). -/
def filter_words_by_pattern (words : List Word) (known : List Char) : List Word :=
  words.filter (fun w => matchesPattern known w)

/-- `_filter_words_by_inclusion` (main.py lines 176-187): keep the words
whose per-letter counts dominate the counts of `unknown`. -/
def filter_words_by_inclusion (words : List Word) (unknown : List Char) : List Word :=
  words.filter (fun w => unknown.all (fun c => unknown.count c ≤ w.count c))

/-- `_filter_words_by_exclusion` (main.py lines 189-192). -/
def filter_words_by_exclusion (words : List Word) (excluded : List Char) : List Word :=
  words.filter (fun w => ¬ w.any (fun c => excluded.contains c))

/-- `word_frequency_score` inside `_sort_by_frequency`: the sum of the
letter weights of a word. -/
def word_frequency_score (w : Word) : Nat := (w.map letterFrequency).sum

/-- `_sort_by_frequency` (main.py lines 194-199):
`sorted(words, key=word_frequency_score, reverse=True)`, i.e. the stable
sort by descending score. -/
def sort_by_frequency (words : List Word) : List Word :=
  words.insertionSort (fun a b => word_frequency_score b ≤ word_frequency_score a)

/-- Python slice `l[:n]` for an arbitrary integer `n`. -/
def pySlice (l : List Word) (n : Int) : List Word :=
  if 0 ≤ n then l.take n.toNat else l.take (l.length - (-n).toNat)

/-- The `stats` dictionary built by `find_words`; the two optional fields
are present only when the corresponding stage ran. -/
structure FilterStats where
  original : Nat
  after_pattern : Nat
  after_inclusion : Option Nat
  after_exclusion : Option Nat
deriving DecidableEq, Repr

/-- The final truncation step of `find_words`
(`if limit and len(filtered_words) > limit`): `limit=None` and `limit=0`
are both falsy and leave the list untouched. -/
def apply_limit (l : List Word) : Option Int → List Word
  | none => l
  | some n => if n ≠ 0 ∧ (l.length : Int) > n then pySlice l n else l

/-- `find_words` (main.py lines 79-119): validate, lower-case, check
conflicts, then filter by pattern, inclusion and exclusion, optionally
sort by frequency and truncate. -/
def find_words (dictWords : List Word) (known0 unknown0 excluded0 : List Char)
    (sortByFrequency : Bool) (limit : Option Int) :
    Except FindError (List Word × FilterStats) :=
  match validate_inputs known0 unknown0 excluded0 with
  | some e => Except.error e
  | none =>
    let known := known0.map ruLower
    let unknown := unknown0.map ruLower
    let excluded := excluded0.map ruLower
    match check_conflicts known unknown excluded with
    | some e => Except.error e
    | none =>
      let w1 := filter_words_by_pattern dictWords known
      let s1 : FilterStats := ⟨dictWords.length, w1.length, none, none⟩
      let p2 :=
        if unknown.isEmpty then (w1, s1)
        else
          let fw := filter_words_by_inclusion w1 unknown
          (fw, { s1 with after_inclusion := some fw.length })
      let p3 :=
        if excluded.isEmpty then p2
        else
          let fw := filter_words_by_exclusion p2.1 excluded
          (fw, { p2.2 with after_exclusion := some fw.length })
      let w4 := if sortByFrequency ∧ ¬ p3.1.isEmpty then sort_by_frequency p3.1 else p3.1
      Except.ok (apply_limit w4 limit, p3.2)

/-- The word list of a successful `find_words` call. -/
def resultWords (r : Except FindError (List Word × FilterStats)) : Option (List Word) :=
  match r with
  | Except.ok p => some p.1
  | Except.error _ => none

/-- The error of a failed `find_words` call. -/
def resultError (r : Except FindError (List Word × FilterStats)) : Option FindError :=
  match r with
  | Except.ok _ => none
  | Except.error e => some e

/-- `_compare_words` (main.py lines 280-290): per position of
`zip(guess, target)`, a positional match gives `+`, a letter occurring
anywhere in the target gives `?`, anything else gives `-`.  No
letter-consumption bookkeeping is performed. -/
def compare_words (guess target : Word) : List Char :=
  (guess.zip target).map (fun p =>
    if p.1 = p.2 then '+'
    else if target.contains p.1 then '?'
    else '-')

/-! ## Interactive-mode state update (main.py lines 412-457)

The interactive loop keeps three strings `known`, `unknown`, `excluded`
and, given five parsed `(status, letter)` pairs, derives the next state in
two passes. -/

/-- Pass 1 (main.py lines 417-420): every position whose status is `+`
overwrites that position of `known` with its letter.  Both lists have
length 5 at the call site. -/
def pass1 : List Char → List (Char × Char) → List Char
  | ks, [] => ks
  | [], _ => []
  | k :: ks, (s, l) :: ps => (if s = '+' then l else k) :: pass1 ks ps

/-- The loop `while letter in new_unknown: new_unknown.remove(letter)`:
repeatedly removing the first occurrence until none is left removes every
occurrence and keeps the order of the rest. -/
def removeAll : List Char → Char → List Char
  | [], _ => []
  | x :: xs, c => if x = c then removeAll xs c else x :: removeAll xs c

/-- One iteration of pass 2 (main.py lines 423-453), acting on the pair
(`new_unknown`, `new_excluded`); `ks` is the pass-1 `known` string, which
pass 2 never modifies. -/
def pass2_step (ks : List Char) (st : List Char × List Char) (p : Char × Char) :
    List Char × List Char :=
  if p.1 = '+' then
    (removeAll st.1 p.2, st.2)
  else if p.1 = '?' then
    let known_count := ks.count p.2
    let unknown_count := st.1.count p.2
    if known_count + unknown_count = 0 then (st.1 ++ [p.2], st.2)
    else if 0 < known_count then (st.1 ++ [p.2], st.2)
    else st
  else if p.1 = '-' then
    if ¬ ks.contains p.2 ∧ ¬ st.1.contains p.2 then
      if ¬ st.2.contains p.2 then (st.1, st.2 ++ [p.2]) else st
    else st
  else st

/-- The whole update step of `interactive_mode`: pass 1 fixes the `+`
letters, then pass 2 reconciles `unknown` and `excluded` position by
position against the post-pass-1 `known`. -/
def update_state (known unknown excluded : List Char)
    (parsed : List (Char × Char)) : List Char × List Char × List Char :=
  let new_known := pass1 known parsed
  let st := parsed.foldl (pass2_step new_known) (unknown, excluded)
  (new_known, st.1, st.2)

/-! ## Suggestion engine (main.py lines 221-278) -/

/-- The inline check of `suggest_next_word` (main.py lines 249-253): a word
does not contradict the `known` positions when every non-`_` position of
`known` indexes into the word and carries the same letter there. -/
def matchesKnownPositions : List Char → List Char → Bool
  | [], _ => true
  | k :: ks, [] => k == '_' && matchesKnownPositions ks []
  | k :: ks, c :: cs => (k == '_' || k == c) && matchesKnownPositions ks cs

/-- `suggest_next_word` (main.py lines 221-278).  `selfWords` is the
dictionary `self.words`; `randomChoice` is the injected source of
randomness standing for `random.choice`.  The diversity scores (Python
floats) are modelled as exact rationals. -/
def suggest_next_word (selfWords : List Word) (current_words : List Word)
    (excluded_letters : List Char) (known : List Char) (unknown : List Char)
    (randomChoice : List Word → Word) : Word :=
  if current_words.isEmpty then
    let available_starters := STARTER_WORDS.filter (fun w =>
      selfWords.contains w && ¬ w.any (fun c => excluded_letters.contains c))
    match available_starters with
    | s :: _ => s
    | [] => randomChoice selfWords
  else if current_words.length ≤ 2 then
    current_words.headD []
  else if current_words.length ≤ 5 then
    current_words.getD (current_words.length / 2) []
  else
    let candidate_words := current_words.take 10
    let additional_candidates := (selfWords.filter (fun w =>
      ¬ w.any (fun c => excluded_letters.contains c) &&
        matchesKnownPositions known w)).take 20
    let cands := candidate_words ++ additional_candidates
    let best := cands.foldl (fun acc candidate =>
      let pats := current_words.map (fun w => compare_words candidate w)
      let numGroups := pats.dedup.length
      let maxGroup := (pats.dedup.map (fun p => pats.count p)).foldl Nat.max 0
      let diversity_score :=
        (numGroups : ℚ) - (maxGroup : ℚ) / (current_words.length : ℚ)
      let is_from_results : ℚ := if current_words.contains candidate then 1 else 0
      let score := diversity_score + is_from_results * (1 / 2)
      if acc.2 < score then (some candidate, score) else acc)
      ((none : Option Word), (-1 : ℚ))
    match best.1 with
    | some w => w
    | none => current_words.headD []

/-- The two arguments of `suggest_next_word` that are Python mutable
containers reachable by the caller (`current_words`, and the
`excluded_letters` set whose default value is a single object shared
across calls). -/
structure SuggestArgs where
  current_words : List Word
  excluded_letters : List Char
deriving DecidableEq, Repr

/-- `suggest_next_word` with its two caller-visible mutable containers
threaded explicitly as state.  Every statement of the Python body only
reads them — the one write, `candidate_words.extend(...)`, mutates the
fresh copy made by the slice `current_words[:10]` — so the body computes
the word from the state and hands the state back unchanged. -/
def suggest_next_word_st (selfWords : List Word) (known unknown : List Char)
    (randomChoice : List Word → Word) (st : SuggestArgs) : Word × SuggestArgs :=
  let result :=
    if st.current_words.isEmpty then
      let available_starters := STARTER_WORDS.filter (fun w =>
        selfWords.contains w && ¬ w.any (fun c => st.excluded_letters.contains c))
      match available_starters with
      | s :: _ => s
      | [] => randomChoice selfWords
    else if st.current_words.length ≤ 2 then
      st.current_words.headD []
    else if st.current_words.length ≤ 5 then
      st.current_words.getD (st.current_words.length / 2) []
    else
      let candidate_words := st.current_words.take 10
      let additional_candidates := (selfWords.filter (fun w =>
        ¬ w.any (fun c => st.excluded_letters.contains c) &&
          matchesKnownPositions known w)).take 20
      let cands := candidate_words ++ additional_candidates
      let best := cands.foldl (fun acc candidate =>
        let pats := st.current_words.map (fun w => compare_words candidate w)
        let numGroups := pats.dedup.length
        let maxGroup := (pats.dedup.map (fun p => pats.count p)).foldl Nat.max 0
        let diversity_score :=
          (numGroups : ℚ) - (maxGroup : ℚ) / (st.current_words.length : ℚ)
        let is_from_results : ℚ := if st.current_words.contains candidate then 1 else 0
        let score := diversity_score + is_from_results * (1 / 2)
        if acc.2 < score then (some candidate, score) else acc)
        ((none : Option Word), (-1 : ℚ))
      match best.1 with
      | some w => w
      | none => st.current_words.headD []
  (result, st)

/-- The concrete round-trip scenario used as a counterexample: prior
constraints with required letter х, guess equal to the target адрес with
an all-Correct verdict, dictionary containing exactly the target. -/
def roundTripState : List Char × List Char × List Char :=
  update_state (wrd "_____") (wrd "х") (wrd "") ((wrd "адрес").map (fun c => ('+', c)))

/-! ## Helper lemmas -/

theorem removeAll_eq_filter (l : List Char) (c : Char) :
    removeAll l c = l.filter (fun x => x ≠ c) := by
  induction l with
  | nil => rfl
  | cons x xs ih =>
    by_cases hx : x = c
    · simp [removeAll, hx, ih]
    · simp [removeAll, hx, ih]

theorem ruLower_eq_self {c : Char} (h : isRuLetter c = true) : ruLower c = c := by
  unfold isRuLetter at h
  simp only [Bool.or_eq_true, Bool.and_eq_true, decide_eq_true_eq, beq_iff_eq] at h
  unfold ruLower
  rcases h with ⟨h1, h2⟩ | h3
  · rw [if_neg, if_neg]
    · intro hc
      subst hc
      exact absurd h1 (by decide)
    · rintro ⟨-, hC⟩
      exact absurd (Char.le_trans h1 hC) (by decide)
  · subst h3
    decide

theorem map_ruLower_eq_self {l : List Char}
    (h : ∀ c ∈ l, isRuLetter c = true ∨ c = '_') : l.map ruLower = l := by
  induction l with
  | nil => rfl
  | cons x xs ih =>
    have hx := h x (by simp)
    have htail : xs.map ruLower = xs := ih (fun c hc => h c (by simp [hc]))
    rcases hx with hx | hx
    · simp [ruLower_eq_self hx, htail]
    · subst hx
      simp [show ruLower '_' = '_' from by decide, htail]

theorem mem_sortedSet {l : List Char} {c : Char} : c ∈ sortedSet l ↔ c ∈ l := by
  unfold sortedSet
  rw [List.mem_insertionSort, List.mem_dedup]

theorem validate_inputs_eq_none {known unknown excluded : List Char}
    (h5 : known.length = 5)
    (hkc : ∀ c ∈ known, isRuLetter c = true ∨ c = '_')
    (huc : ∀ c ∈ unknown, isRuLetter c = true)
    (hec : ∀ c ∈ excluded, isRuLetter c = true) :
    validate_inputs known unknown excluded = none := by
  have hk : known.map ruLower = known := map_ruLower_eq_self hkc
  have hu : unknown.map ruLower = unknown :=
    map_ruLower_eq_self (fun c hc => Or.inl (huc c hc))
  have he : excluded.map ruLower = excluded :=
    map_ruLower_eq_self (fun c hc => Or.inl (hec c hc))
  have h2 : known.all (fun c => isRuLetter c || c == '_') = true := by
    rw [List.all_eq_true]
    intro c hc
    rcases hkc c hc with h | h
    · simp [h]
    · simp [h]
  have h3 : unknown.all isRuLetter = true := by
    rw [List.all_eq_true]
    exact huc
  have h4 : excluded.all isRuLetter = true := by
    rw [List.all_eq_true]
    exact hec
  simp [validate_inputs, hk, hu, he, h5, h2, h3, h4]

theorem check_conflicts_eq_none {known unknown excluded : List Char}
    (hc1 : ∀ c ∈ known, c ≠ '_' → c ∉ excluded)
    (hc2 : ∀ c ∈ unknown, c ∉ excluded) :
    check_conflicts known unknown excluded = none := by
  have h1 : (known.filter (fun c => c ≠ '_')).filter
      (fun c => excluded.contains c) = [] := by
    rw [List.filter_eq_nil_iff]
    intro c hc
    have hm := List.mem_filter.mp hc
    have hnu : c ≠ '_' := by simpa using hm.2
    simpa using hc1 c hm.1 hnu
  have h2 : unknown.filter (fun c => excluded.contains c) = [] := by
    rw [List.filter_eq_nil_iff]
    intro c hc
    simpa using hc2 c hc
  unfold check_conflicts
  simp only [h1, h2]
  simp [sortedSet]

theorem check_conflicts_known_conflict {known unknown excluded : List Char}
    (h : ∃ c ∈ known, c ≠ '_' ∧ c ∈ excluded) :
    check_conflicts known unknown excluded =
      some (FindError.conflictKnownExcluded (sortedSet
        ((known.filter (fun c => c ≠ '_')).filter (fun c => excluded.contains c)))) := by
  rcases h with ⟨c, hck, hcu, hce⟩
  have hcin : c ∈ (known.filter (fun c => c ≠ '_')).filter
      (fun c => excluded.contains c) :=
    List.mem_filter.mpr ⟨List.mem_filter.mpr ⟨hck, by simpa using hcu⟩,
      by simpa using hce⟩
  have hne : ¬ (sortedSet ((known.filter (fun c => c ≠ '_')).filter
      (fun c => excluded.contains c))).isEmpty = true := by
    intro hemp
    have hm := mem_sortedSet.mpr hcin
    rw [List.isEmpty_iff.mp hemp] at hm
    exact absurd hm (List.not_mem_nil c)
  unfold check_conflicts
  rw [if_pos hne]

theorem check_conflicts_unknown_conflict {known unknown excluded : List Char}
    (hc1 : ∀ c ∈ known, c ≠ '_' → c ∉ excluded)
    (h : ∃ c ∈ unknown, c ∈ excluded) :
    check_conflicts known unknown excluded =
      some (FindError.conflictUnknownExcluded (sortedSet
        (unknown.filter (fun c => excluded.contains c)))) := by
  rcases h with ⟨c, hcu, hce⟩
  have h1 : (known.filter (fun c => c ≠ '_')).filter
      (fun c => excluded.contains c) = [] := by
    rw [List.filter_eq_nil_iff]
    intro x hx
    have hm := List.mem_filter.mp hx
    have hnu : x ≠ '_' := by simpa using hm.2
    simpa using hc1 x hm.1 hnu
  have hcin : c ∈ unknown.filter (fun c => excluded.contains c) :=
    List.mem_filter.mpr ⟨hcu, by simpa using hce⟩
  have hne : ¬ (sortedSet (unknown.filter (fun c => excluded.contains c))).isEmpty
      = true := by
    intro hemp
    have hm := mem_sortedSet.mpr hcin
    rw [List.isEmpty_iff.mp hemp] at hm
    exact absurd hm (List.not_mem_nil c)
  unfold check_conflicts
  simp only [h1]
  rw [if_neg (by simp [sortedSet]), if_pos hne]

theorem mem_filter_words_by_pattern {dict : List Word} {known : List Char} {w : Word} :
    w ∈ filter_words_by_pattern dict known ↔
      w ∈ dict ∧ matchesPattern known w = true := by
  simp [filter_words_by_pattern, List.mem_filter]

theorem mem_filter_words_by_inclusion {l : List Word} {unknown : List Char} {w : Word} :
    w ∈ filter_words_by_inclusion l unknown ↔
      w ∈ l ∧ ∀ c ∈ unknown, unknown.count c ≤ w.count c := by
  simp [filter_words_by_inclusion, List.mem_filter]

theorem mem_filter_words_by_exclusion {l : List Word} {excluded : List Char} {w : Word} :
    w ∈ filter_words_by_exclusion l excluded ↔
      w ∈ l ∧ ∀ c ∈ w, c ∉ excluded := by
  simp [filter_words_by_exclusion, List.mem_filter]

theorem mem_sort_ite {w : Word} {b : Prop} [Decidable b] {l : List Word} :
    (w ∈ if b then sort_by_frequency l else l) ↔ w ∈ l := by
  split
  · simp [sort_by_frequency]
  · exact Iff.rfl

theorem pass2_step_plus (ks u e : List Char) (t : Char) :
    pass2_step ks (u, e) ('+', t) = (removeAll u t, e) := by
  unfold pass2_step
  simp

theorem pass1_all_correct : ∀ (ks ts : List Char), ks.length = ts.length →
    pass1 ks (ts.map (fun c => ('+', c))) = ts
  | ks, [], h => by
    cases ks with
    | nil => rfl
    | cons k ks => simp at h
  | ks, t :: ts, h => by
    cases ks with
    | nil => simp at h
    | cons k ks =>
      have h' : ks.length = ts.length := by simpa using h
      simp [pass1, pass1_all_correct ks ts h']

theorem foldl_pass2_all_correct (ks e : List Char) :
    ∀ (ts u : List Char),
      (ts.map (fun c => ('+', c))).foldl (pass2_step ks) (u, e) =
        (u.filter (fun c => decide (c ∉ ts)), e)
  | [], u => by simp
  | t :: ts, u => by
    simp only [List.map_cons, List.foldl_cons, pass2_step_plus]
    rw [foldl_pass2_all_correct ks e ts (removeAll u t), removeAll_eq_filter,
      List.filter_filter]
    refine congrArg (fun l => (l, e)) (List.filter_congr ?_)
    intro a _
    by_cases h1 : a = t <;> by_cases h2 : a ∈ ts <;> simp [h1, h2]

theorem update_state_all_correct (known unknown excluded target : List Char)
    (hlen : known.length = target.length) :
    update_state known unknown excluded (target.map (fun c => ('+', c))) =
      (target, unknown.filter (fun c => decide (c ∉ target)), excluded) := by
  unfold update_state
  simp only [pass1_all_correct known target hlen, foldl_pass2_all_correct]

theorem matchesPattern_no_wildcard {ks : List Char} (h : ∀ c ∈ ks, c ≠ '_') :
    ∀ w, matchesPattern ks w = true ↔ w = ks := by
  induction ks with
  | nil =>
    intro w
    cases w <;> simp [matchesPattern]
  | cons k ks ih =>
    intro w
    cases w with
    | nil => simp [matchesPattern]
    | cons c cs =>
      have hk : k ≠ '_' := h k (by simp)
      have ih' := ih (fun x hx => h x (by simp [hx])) cs
      simp only [matchesPattern, hk, if_false, Bool.and_eq_true, decide_eq_true_eq,
        ih', List.cons.injEq]
      exact ⟨fun ⟨a, b⟩ => ⟨a.symm, b⟩, fun ⟨a, b⟩ => ⟨a.symm, b⟩⟩

theorem filter_eq_target : ∀ {dict : List Word} {target : Word},
    dict.count target = 1 →
    dict.filter (fun w => decide (w = target)) = [target]
  | [], target, hcount => by simp at hcount
  | d :: ds, target, hcount => by
    by_cases hd : d = target
    · subst hd
      have h1 : (d :: ds).count d = ds.count d + 1 := List.count_cons_self d ds
      have hz : ds.count d = 0 := by
        rw [h1] at hcount
        omega
      have hnm : d ∉ ds := List.count_eq_zero.mp hz
      have hfil : ds.filter (fun w => decide (w = d)) = [] := by
        rw [List.filter_eq_nil_iff]
        intro w hw
        simp only [decide_eq_true_eq]
        intro hwd
        exact hnm (hwd ▸ hw)
      simp [List.filter_cons, hfil]
    · have hcount' : ds.count target = 1 := by
        rwa [List.count_cons_of_ne (fun h => hd h.symm)] at hcount
      have hfil := filter_eq_target hcount'
      simp [List.filter_cons, hd, hfil]

theorem filter_words_by_pattern_self {dict : List Word} {target : List Char}
    (h : ∀ c ∈ target, c ≠ '_') (hcount : dict.count target = 1) :
    filter_words_by_pattern dict target = [target] := by
  have hbe : ∀ w ∈ dict, matchesPattern target w = decide (w = target) := by
    intro w _
    by_cases hwt : w = target
    · subst hwt
      simp [(matchesPattern_no_wildcard h w).mpr rfl]
    · have h1 : matchesPattern target w = false :=
        Bool.eq_false_iff.mpr (fun hc => hwt ((matchesPattern_no_wildcard h w).mp hc))
      simp [h1, hwt]
  unfold filter_words_by_pattern
  rw [List.filter_congr hbe]
  exact filter_eq_target hcount

/-! ## Claim theorems -/

/-- C4: for 5-letter `guess` and `target`, `_compare_words` yields one
verdict per position: `+` exactly when the letters agree, otherwise `?`
exactly when the guessed letter occurs anywhere in the target, otherwise
`-`.  No letter-consumption bookkeeping is performed, so the same target
letter can justify `?` at several guess positions (the witness shows a
letter occurring once in the target marked `?` twice). -/
theorem compare_words_spec (guess target : Word)
    (hg : guess.length = 5) (ht : target.length = 5) :
    (compare_words guess target).length = 5 ∧
    ∀ i, i < 5 →
      (compare_words guess target).getD i ' ' =
        (if guess.getD i ' ' = target.getD i ' ' then '+'
         else if target.contains (guess.getD i ' ') then '?'
         else '-') := by
  have hz : (guess.zip target).length = 5 := by
    rw [List.length_zip, hg, ht]
    rfl
  constructor
  · simp [compare_words, hz]
  · intro i hi
    have h1 : i < guess.length := by omega
    have h2 : i < target.length := by omega
    have h3 : i < (compare_words guess target).length := by
      simpa [compare_words, hz] using hi
    rw [List.getD_eq_getElem _ _ h3, List.getD_eq_getElem _ _ h1,
      List.getD_eq_getElem _ _ h2]
    simp [compare_words, List.getElem_zip]

/-- Witness for C4, also exhibiting the double `?`: in the target среда
the letter а occurs exactly once, yet the guess ааууу receives `?` at
both of its positions 0 and 1. -/
theorem compare_words_spec_witness :
    (compare_words (wrd "ааууу") (wrd "среда")).length = 5 ∧
    (compare_words (wrd "ааууу") (wrd "среда")).getD 0 ' ' = '?' ∧
    (compare_words (wrd "ааууу") (wrd "среда")).getD 1 ' ' = '?' ∧
    (wrd "среда").count 'а' = 1 := by
  have h := compare_words_spec (wrd "ааууу") (wrd "среда") rfl rfl
  refine ⟨h.1, ?_, ?_, by decide⟩
  · rw [h.2 0 (by decide)]
    decide
  · rw [h.2 1 (by decide)]
    decide

/-- C6: for a non-empty candidate list of at most 2 entries the suggestion
engine returns the first entry; for 3 to 5 entries it returns the entry at
index `len / 2`. -/
theorem suggest_next_word_small_spec (selfWords : List Word) (cw : List Word)
    (excl known unknown : List Char) (rand : List Word → Word)
    (hne : cw ≠ []) :
    (cw.length ≤ 2 →
      suggest_next_word selfWords cw excl known unknown rand = cw.headD []) ∧
    (3 ≤ cw.length → cw.length ≤ 5 →
      suggest_next_word selfWords cw excl known unknown rand =
        cw.getD (cw.length / 2) []) := by
  have hemp : cw.isEmpty = false := by simpa [List.isEmpty_iff] using hne
  constructor
  · intro h2
    unfold suggest_next_word
    simp [hemp, h2]
  · intro h3 h5
    have h2 : ¬ cw.length ≤ 2 := by omega
    unfold suggest_next_word
    simp [hemp, h2, h5]

/-- Witness for C6: a 2-element list yields its first entry, a 4-element
list yields the entry at index 2. -/
theorem suggest_next_word_small_witness :
    suggest_next_word [] [wrd "запас", wrd "адрес"] [] (wrd "_____") []
      (fun _ => []) = wrd "запас" ∧
    suggest_next_word [] [wrd "запас", wrd "адрес", wrd "образ", wrd "стена"]
      [] (wrd "_____") [] (fun _ => []) = wrd "образ" := by
  have h1 := (suggest_next_word_small_spec [] [wrd "запас", wrd "адрес"]
    [] (wrd "_____") [] (fun _ => []) (by decide)).1 (by decide)
  have h2 := (suggest_next_word_small_spec
    [] [wrd "запас", wrd "адрес", wrd "образ", wrd "стена"]
    [] (wrd "_____") [] (fun _ => []) (by decide)).2 (by decide) (by decide)
  exact ⟨h1.trans (by decide), h2.trans (by decide)⟩

/-- C9: a limit of 0 is falsy in `if limit and len(filtered_words) > limit`,
so `find_words` with limit 0 behaves exactly like `find_words` with no
limit — the full result list, not an empty one.  Truncation (the Python
slice) happens only when the limit is non-zero and the list is strictly
longer than it; otherwise the list is returned untouched. -/
theorem find_words_limit_zero_spec (dict : List Word)
    (known unknown excluded : List Char) (flag : Bool) :
    (find_words dict known unknown excluded flag (some 0) =
      find_words dict known unknown excluded flag none) ∧
    (∀ (l : List Word) (n : Int), (¬ n = 0 ∧ (l.length : Int) > n) →
      apply_limit l (some n) = pySlice l n) ∧
    (∀ (l : List Word) (n : Int), n = 0 ∨ (l.length : Int) ≤ n →
      apply_limit l (some n) = l) := by
  refine ⟨?_, ?_, ?_⟩
  · unfold find_words
    cases validate_inputs known unknown excluded with
    | some e => rfl
    | none =>
      cases check_conflicts (known.map ruLower) (unknown.map ruLower)
          (excluded.map ruLower) with
      | some e => rfl
      | none => simp [apply_limit]
  · intro l n h
    show (if n ≠ 0 ∧ (l.length : Int) > n then pySlice l n else l) = pySlice l n
    rw [if_pos h]
  · intro l n h
    show (if n ≠ 0 ∧ (l.length : Int) > n then pySlice l n else l) = l
    rw [if_neg]
    rcases h with h | h
    · exact fun hc => hc.1 h
    · exact fun hc => absurd hc.2 (by omega)

/-- Witness for C9: limit 0 equals no limit on a concrete dictionary;
limit 1 on a 2-element list slices, limit 0 does not. -/
theorem find_words_limit_zero_witness :
    find_words [wrd "адрес", wrd "запас", wrd "образ"] (wrd "_____") (wrd "")
      (wrd "") true (some 0) =
    find_words [wrd "адрес", wrd "запас", wrd "образ"] (wrd "_____") (wrd "")
      (wrd "") true none ∧
    apply_limit [wrd "адрес", wrd "запас"] (some 1) =
      pySlice [wrd "адрес", wrd "запас"] 1 ∧
    apply_limit [wrd "адрес", wrd "запас"] (some 0) = [wrd "адрес", wrd "запас"] := by
  have h := find_words_limit_zero_spec [wrd "адрес", wrd "запас", wrd "образ"]
    (wrd "_____") (wrd "") (wrd "") true
  exact ⟨h.1, h.2.1 [wrd "адрес", wrd "запас"] 1 (by norm_num),
    h.2.2 [wrd "адрес", wrd "запас"] 0 (Or.inl rfl)⟩

/-- C10: `suggest_next_word` only reads its `current_words` and
`excluded_letters` arguments (Python mutable containers, the latter a
default object shared across calls): threading them as explicit state
through the body returns them unchanged, and the computed word is the
pure function of that state — so repeated calls observe no cross-call
leakage through the shared default. -/
theorem suggest_next_word_frame_spec (selfWords : List Word)
    (known unknown : List Char) (rand : List Word → Word) (st : SuggestArgs) :
    (suggest_next_word_st selfWords known unknown rand st).2 = st ∧
    (suggest_next_word_st selfWords known unknown rand st).1 =
      suggest_next_word selfWords st.current_words st.excluded_letters
        known unknown rand :=
  ⟨rfl, rfl⟩

/-- C7: with an empty candidate list the suggestion engine returns the
first starter word that exists in the dictionary and avoids every
forbidden-so-far letter (formally: the qualifying starters in list order
are `s :: l`, and `find?` of the qualifying predicate is `some s`); when
no starter qualifies it returns the injected random choice over the
dictionary; in particular with no forbidden letters and at least one
starter in the dictionary the result is a starter word. -/
theorem suggest_next_word_empty_spec (selfWords : List Word)
    (excl known unknown : List Char) (rand : List Word → Word) :
    (∀ s l, STARTER_WORDS.filter (fun w =>
        selfWords.contains w && ¬ w.any (fun c => excl.contains c)) = s :: l →
      suggest_next_word selfWords [] excl known unknown rand = s ∧
      STARTER_WORDS.find? (fun w =>
        selfWords.contains w && ¬ w.any (fun c => excl.contains c)) = some s) ∧
    (STARTER_WORDS.filter (fun w =>
        selfWords.contains w && ¬ w.any (fun c => excl.contains c)) = [] →
      suggest_next_word selfWords [] excl known unknown rand = rand selfWords) ∧
    (excl = [] → (∃ s ∈ STARTER_WORDS, s ∈ selfWords) →
      suggest_next_word selfWords [] excl known unknown rand ∈ STARTER_WORDS) := by
  have hfirst : ∀ s l, STARTER_WORDS.filter (fun w =>
      selfWords.contains w && ¬ w.any (fun c => excl.contains c)) = s :: l →
      suggest_next_word selfWords [] excl known unknown rand = s ∧
      STARTER_WORDS.find? (fun w =>
        selfWords.contains w && ¬ w.any (fun c => excl.contains c)) = some s := by
    intro s l hfil
    refine ⟨?_, ?_⟩
    · unfold suggest_next_word
      rw [hfil]
      rfl
    · have hh := List.filter_head? (fun w =>
        selfWords.contains w && ¬ w.any (fun c => excl.contains c)) STARTER_WORDS
      rw [hfil] at hh
      simpa using hh.symm
  refine ⟨hfirst, ?_, ?_⟩
  · intro hfil
    unfold suggest_next_word
    rw [hfil]
    rfl
  · intro hexcl hex
    subst hexcl
    rcases hex with ⟨s0, hs0, hmem⟩
    cases hfil : STARTER_WORDS.filter (fun w =>
        selfWords.contains w && ¬ w.any (fun c => ([] : List Char).contains c)) with
    | nil =>
      exfalso
      have hin : s0 ∈ STARTER_WORDS.filter (fun w =>
          selfWords.contains w && ¬ w.any (fun c => ([] : List Char).contains c)) :=
        List.mem_filter.mpr ⟨hs0, by simp [hmem]⟩
      rw [hfil] at hin
      exact absurd hin (List.not_mem_nil s0)
    | cons s l =>
      rw [(hfirst s l hfil).1]
      have hin : s ∈ STARTER_WORDS.filter (fun w =>
          selfWords.contains w && ¬ w.any (fun c => ([] : List Char).contains c)) := by
        rw [hfil]
        exact List.mem_cons_self s l
      exact (List.mem_filter.mp hin).1

/-- C8: frequency ranking sorts the words into descending order of
`word_frequency_score` — the sum of the static per-letter weights, 0 for a
letter absent from the table — as a permutation of the input, and stably:
restricting the sorted list to the words of any fixed score yields exactly
the input restricted to that score, in the input's order. -/
theorem sort_by_frequency_spec (words : List Word) :
    List.Perm (sort_by_frequency words) words ∧
    (sort_by_frequency words).Pairwise
      (fun a b => word_frequency_score b ≤ word_frequency_score a) ∧
    ∀ s : Nat,
      (sort_by_frequency words).filter (fun w => word_frequency_score w == s) =
      words.filter (fun w => word_frequency_score w == s) := by
  refine ⟨List.perm_insertionSort _ words, ?_, ?_⟩
  · haveI : IsTotal Word (fun a b => word_frequency_score b ≤ word_frequency_score a) :=
      ⟨fun a b => Nat.le_total (word_frequency_score b) (word_frequency_score a)⟩
    haveI : IsTrans Word (fun a b => word_frequency_score b ≤ word_frequency_score a) :=
      ⟨fun _ _ _ hab hbc => Nat.le_trans hbc hab⟩
    exact List.sorted_insertionSort _ words
  · intro s
    have hA : (words.filter (fun w => word_frequency_score w == s)).Pairwise
        (fun a b => word_frequency_score b ≤ word_frequency_score a) := by
      refine List.pairwise_of_forall_mem_list ?_
      intro a ha b hb
      have ha' := (List.mem_filter.mp ha).2
      have hb' := (List.mem_filter.mp hb).2
      rw [beq_iff_eq] at ha' hb'
      rw [ha', hb']
    have hsub : List.Sublist (words.filter (fun w => word_frequency_score w == s))
        (sort_by_frequency words) :=
      List.sublist_insertionSort hA (List.filter_sublist words)
    have hself : (words.filter (fun w => word_frequency_score w == s)).filter
        (fun w => word_frequency_score w == s) =
        words.filter (fun w => word_frequency_score w == s) :=
      List.filter_eq_self.mpr (fun a ha => (List.mem_filter.mp ha).2)
    have hsub2 : List.Sublist (words.filter (fun w => word_frequency_score w == s))
        ((sort_by_frequency words).filter (fun w => word_frequency_score w == s)) := by
      have := hsub.filter (fun w => word_frequency_score w == s)
      rwa [hself] at this
    have hperm : List.Perm
        ((sort_by_frequency words).filter (fun w => word_frequency_score w == s))
        (words.filter (fun w => word_frequency_score w == s)) :=
      (List.perm_insertionSort _ words).filter _
    exact (hsub2.eq_of_length hperm.length_eq.symm).symm

/-- Witness for C7: with dictionary {хлещи, стена} and nothing forbidden
the (only) qualifying starter стена is returned; forbidding т
disqualifies it and the injected random choice over the dictionary is
returned; and the unforbidden result is a starter word. -/
theorem suggest_next_word_empty_witness :
    suggest_next_word [wrd "хлещи", wrd "стена"] [] [] (wrd "_____") []
      (fun _ => []) = wrd "стена" ∧
    suggest_next_word [wrd "хлещи", wrd "стена"] [] ['т'] (wrd "_____") []
      (fun l => l.headD []) = wrd "хлещи" ∧
    suggest_next_word [wrd "хлещи", wrd "стена"] [] [] (wrd "_____") []
      (fun _ => []) ∈ STARTER_WORDS := by
  have h := suggest_next_word_empty_spec [wrd "хлещи", wrd "стена"] []
    (wrd "_____") [] (fun _ => [])
  have h2 := suggest_next_word_empty_spec [wrd "хлещи", wrd "стена"] ['т']
    (wrd "_____") [] (fun l => l.headD [])
  refine ⟨(h.1 (wrd "стена") [] (by decide)).1, ?_,
    h.2.2 rfl ⟨wrd "стена", by decide, by decide⟩⟩
  exact (h2.2.1 (by decide)).trans (by decide)

/-- C1 is refuted: at a Correct position the code runs
`while letter in new_unknown: new_unknown.remove(letter)`, which removes
EVERY instance of the letter, not exactly one.  Concretely, with prior
required multiset аа and verdict `+а` at position 0 (the remaining
verdicts being `-` for fresh letters), the resulting required multiset
holds zero а, not the one instance the claim would leave. -/
theorem update_correct_counterexample :
    (wrd "аа").count 'а' = 2 ∧
    (update_state (wrd "_____") (wrd "аа") (wrd "")
      [('+', 'а'), ('-', 'б'), ('-', 'в'), ('-', 'г'), ('-', 'д')]).2.1.count 'а' = 0 ∧
    ¬ (update_state (wrd "_____") (wrd "аа") (wrd "")
      [('+', 'а'), ('-', 'б'), ('-', 'в'), ('-', 'г'), ('-', 'д')]).2.1.count 'а'
      = 2 - 1 := by
  decide

/-- C1 amended: processing a Correct position in pass 2 removes ALL
instances of that position's letter from the current required multiset
(the count drops to zero, however many were present — so exactly one is
removed only when exactly one was present), leaves the multiplicity of
every other letter unchanged, and does not touch `excluded`.  Later
positions of the same round may re-add instances of the letter. -/
theorem pass2_step_correct_spec (ks unk exc : List Char) (letter : Char) :
    (pass2_step ks (unk, exc) ('+', letter)).1.count letter = 0 ∧
    (∀ c, c ≠ letter →
      (pass2_step ks (unk, exc) ('+', letter)).1.count c = unk.count c) ∧
    (pass2_step ks (unk, exc) ('+', letter)).2 = exc := by
  have hstep : pass2_step ks (unk, exc) ('+', letter) = (removeAll unk letter, exc) := by
    unfold pass2_step
    simp
  rw [hstep, removeAll_eq_filter]
  refine ⟨?_, ?_, rfl⟩
  · rw [List.count_eq_zero]
    intro hmem
    have := (List.mem_filter.mp hmem).2
    simp at this
  · intro c hc
    exact List.count_filter (by simpa using hc)

/-- Witness for C1 amended: removing the Correct letter а from the
required multiset аан empties its а-instances, keeps the н count, and
leaves `excluded` = б alone. -/
theorem pass2_step_correct_witness :
    (pass2_step (wrd "а____") (wrd "аан", wrd "б") ('+', 'а')).1.count 'а' = 0 ∧
    (pass2_step (wrd "а____") (wrd "аан", wrd "б") ('+', 'а')).1.count 'н' =
      (wrd "аан").count 'н' ∧
    (pass2_step (wrd "а____") (wrd "аан", wrd "б") ('+', 'а')).2 = wrd "б" := by
  have h := pass2_step_correct_spec (wrd "а____") (wrd "аан") (wrd "б") 'а'
  exact ⟨h.1, h.2.1 'н' (by decide), h.2.2⟩

/-- C5 is refuted for arbitrary prior constraint models: with prior
required letter х and target адрес (which does not contain х), the
all-Correct update does pin `fixed` to адрес, but х survives in
`required`, so filtering the dictionary {адрес} returns the empty list
rather than {адрес}. -/
theorem round_trip_counterexample :
    roundTripState.1 = wrd "адрес" ∧
    resultWords (find_words [wrd "адрес"] roundTripState.1 roundTripState.2.1
      roundTripState.2.2 true none) = some [] ∧
    some ([] : List Word) ≠ some [wrd "адрес"] := by
  decide

/-- C3: for validated inputs, `find_words` fails with a
`ValidationError` naming exactly the offending letters whenever some
letter is both fixed and forbidden (part 1) or both required and
forbidden (part 2), and succeeds whenever neither overlap exists
(part 3) — in particular a letter both fixed and required is never a
conflict, since part 3 assumes nothing about the `known`/`unknown`
overlap.  The error is raised before any filtering work: the error value
is the same for every dictionary `dict`, over which the theorem
quantifies universally. -/
theorem check_conflicts_spec (dict : List Word)
    (known unknown excluded : List Char) (flag : Bool) (limit : Option Int)
    (h5 : known.length = 5)
    (hkc : ∀ c ∈ known, isRuLetter c = true ∨ c = '_')
    (huc : ∀ c ∈ unknown, isRuLetter c = true)
    (hec : ∀ c ∈ excluded, isRuLetter c = true) :
    ((∃ c ∈ known, c ≠ '_' ∧ c ∈ excluded) →
      ∃ ls, find_words dict known unknown excluded flag limit =
          Except.error (FindError.conflictKnownExcluded ls) ∧
        ∀ c, c ∈ ls ↔ (c ∈ known ∧ c ≠ '_' ∧ c ∈ excluded)) ∧
    ((∀ c ∈ known, c ≠ '_' → c ∉ excluded) → (∃ c ∈ unknown, c ∈ excluded) →
      ∃ ls, find_words dict known unknown excluded flag limit =
          Except.error (FindError.conflictUnknownExcluded ls) ∧
        ∀ c, c ∈ ls ↔ (c ∈ unknown ∧ c ∈ excluded)) ∧
    ((∀ c ∈ known, c ≠ '_' → c ∉ excluded) → (∀ c ∈ unknown, c ∉ excluded) →
      ∃ out, find_words dict known unknown excluded flag limit = Except.ok out) := by
  have hval := validate_inputs_eq_none h5 hkc huc hec
  have hk : known.map ruLower = known := map_ruLower_eq_self hkc
  have hu : unknown.map ruLower = unknown :=
    map_ruLower_eq_self (fun c hc => Or.inl (huc c hc))
  have he : excluded.map ruLower = excluded :=
    map_ruLower_eq_self (fun c hc => Or.inl (hec c hc))
  refine ⟨?_, ?_, ?_⟩
  · intro hexist
    refine ⟨sortedSet ((known.filter (fun c => c ≠ '_')).filter
      (fun c => excluded.contains c)), ?_, ?_⟩
    · unfold find_words
      simp only [hval, hk, hu, he, check_conflicts_known_conflict hexist]
    · intro x
      rw [mem_sortedSet]
      simp [List.mem_filter, and_assoc]
      exact fun _ => and_comm
  · intro hc1 hexist
    refine ⟨sortedSet (unknown.filter (fun c => excluded.contains c)), ?_, ?_⟩
    · unfold find_words
      simp only [hval, hk, hu, he, check_conflicts_unknown_conflict hc1 hexist]
    · intro x
      rw [mem_sortedSet]
      simp [List.mem_filter]
  · intro hc1 hc2
    have hconf := check_conflicts_eq_none hc1 hc2
    unfold find_words
    simp only [hval, hk, hu, he, hconf]
    exact ⟨_, rfl⟩

/-- Witness for C3: with fixed positions ад__с, the letter д both fixed
and forbidden is reported (part 1); with д required instead of fixed it is
reported as a required/forbidden conflict (part 2); and fixing а while
also requiring а (the duplicate-letter situation) raises no error
(part 3). -/
theorem check_conflicts_spec_witness :
    (∃ ls, find_words [wrd "адрес"] (wrd "ад__с") (wrd "") (wrd "д") true none =
        Except.error (FindError.conflictKnownExcluded ls) ∧
      ∀ c, c ∈ ls ↔ (c ∈ wrd "ад__с" ∧ c ≠ '_' ∧ c ∈ wrd "д")) ∧
    (∃ ls, find_words [wrd "адрес"] (wrd "_____") (wrd "д") (wrd "д") true none =
        Except.error (FindError.conflictUnknownExcluded ls) ∧
      ∀ c, c ∈ ls ↔ (c ∈ wrd "д" ∧ c ∈ wrd "д")) ∧
    (∃ out, find_words [wrd "адрес"] (wrd "а____") (wrd "а") (wrd "") true none =
      Except.ok out) := by
  refine ⟨?_, ?_, ?_⟩
  · exact (check_conflicts_spec [wrd "адрес"] (wrd "ад__с") (wrd "") (wrd "д")
      true none rfl (by decide) (by decide) (by decide)).1
      ⟨'д', by decide, by decide, by decide⟩
  · exact (check_conflicts_spec [wrd "адрес"] (wrd "_____") (wrd "д") (wrd "д")
      true none rfl (by decide) (by decide) (by decide)).2.1
      (by decide) ⟨'д', by decide, by decide⟩
  · exact (check_conflicts_spec [wrd "адрес"] (wrd "а____") (wrd "а") (wrd "")
      true none rfl (by decide) (by decide) (by decide)).2.2
      (by decide) (by decide)

/-- C2: for any dictionary, validated conflict-free constraints with a
non-empty required multiset, and any word `w`: `w` is in the filter
result exactly when it matches the fixed-position pattern, its per-letter
counts dominate the required multiset (so a required-doubled letter needs
at least two occurrences), and it contains no forbidden letter. -/
theorem find_words_inclusion_spec (dict : List Word)
    (known unknown excluded : List Char) (flag : Bool)
    (h5 : known.length = 5)
    (hkc : ∀ c ∈ known, isRuLetter c = true ∨ c = '_')
    (hne : unknown ≠ [])
    (huc : ∀ c ∈ unknown, isRuLetter c = true)
    (hec : ∀ c ∈ excluded, isRuLetter c = true)
    (hc1 : ∀ c ∈ known, c ≠ '_' → c ∉ excluded)
    (hc2 : ∀ c ∈ unknown, c ∉ excluded) :
    ∃ res stats,
      find_words dict known unknown excluded flag none = Except.ok (res, stats) ∧
      ∀ w, w ∈ res ↔ (w ∈ dict ∧ matchesPattern known w = true ∧
        (∀ c ∈ unknown, unknown.count c ≤ w.count c) ∧
        ∀ c ∈ w, c ∉ excluded) := by
  have hval := validate_inputs_eq_none h5 hkc huc hec
  have hk : known.map ruLower = known := map_ruLower_eq_self hkc
  have hu : unknown.map ruLower = unknown :=
    map_ruLower_eq_self (fun c hc => Or.inl (huc c hc))
  have he : excluded.map ruLower = excluded :=
    map_ruLower_eq_self (fun c hc => Or.inl (hec c hc))
  have hconf := check_conflicts_eq_none hc1 hc2
  have hne' : unknown.isEmpty = false := by simpa using hne
  unfold find_words
  simp only [hval, hk, hu, he, hconf]
  refine ⟨_, _, rfl, ?_⟩
  intro w
  rw [show ∀ l : List Word, apply_limit l none = l from fun l => rfl, mem_sort_ite]
  by_cases hex : excluded = []
  · subst hex
    simp [hne', mem_filter_words_by_pattern, mem_filter_words_by_inclusion,
      and_assoc]
  · have hex' : excluded.isEmpty = false := by simpa using hex
    simp [hne', hex', mem_filter_words_by_pattern, mem_filter_words_by_inclusion,
      mem_filter_words_by_exclusion, and_assoc]

/-- C5 amended: the round trip holds for every prior Constraint Model
that is consistent with the target — every prior required letter occurs
in the target and no target letter is forbidden (the counterexample shows
the claim fails without this consistency restriction, which the update
does not erase).  Then the all-Correct update pins `fixed` to the target
letter-for-letter, and filtering a dictionary containing the target
exactly once returns exactly the singleton of the target. -/
theorem round_trip_amended (dict : List Word)
    (known0 unknown0 excluded0 target : List Char)
    (hk5 : known0.length = 5) (ht5 : target.length = 5)
    (htRu : ∀ c ∈ target, isRuLetter c = true)
    (hexRu : ∀ c ∈ excluded0, isRuLetter c = true)
    (hu : ∀ c ∈ unknown0, c ∈ target)
    (hdisj : ∀ c ∈ target, c ∉ excluded0)
    (hcount : dict.count target = 1) :
    (update_state known0 unknown0 excluded0
      (target.map (fun c => ('+', c)))).1 = target ∧
    ∃ stats, find_words dict
        (update_state known0 unknown0 excluded0 (target.map (fun c => ('+', c)))).1
        (update_state known0 unknown0 excluded0 (target.map (fun c => ('+', c)))).2.1
        (update_state known0 unknown0 excluded0 (target.map (fun c => ('+', c)))).2.2
        true none = Except.ok ([target], stats) := by
  have hlen : known0.length = target.length := by omega
  have hupd := update_state_all_correct known0 unknown0 excluded0 target hlen
  have hunil : unknown0.filter (fun c => decide (c ∉ target)) = [] := by
    rw [List.filter_eq_nil_iff]
    intro c hc
    simpa using hu c hc
  constructor
  · rw [hupd]
  · rw [hupd]
    simp only [hunil]
    have hne_ : ∀ c ∈ target, c ≠ '_' := by
      intro c hc heq
      subst heq
      exact absurd (htRu '_' hc) (by decide)
    have hval := validate_inputs_eq_none ht5 (fun c hc => Or.inl (htRu c hc))
      (fun c hc => absurd hc (List.not_mem_nil c)) hexRu
    have hkid : target.map ruLower = target :=
      map_ruLower_eq_self (fun c hc => Or.inl (htRu c hc))
    have heid : excluded0.map ruLower = excluded0 :=
      map_ruLower_eq_self (fun c hc => Or.inl (hexRu c hc))
    have hconf := check_conflicts_eq_none (fun c hc _ => hdisj c hc)
      (fun c hc => absurd hc (List.not_mem_nil c))
    have hpat := filter_words_by_pattern_self hne_ hcount
    unfold find_words
    simp only [hval, hkid, List.map_nil, heid, hconf, hpat]
    by_cases hex : excluded0 = []
    · subst hex
      simp [sort_by_frequency, apply_limit]
    · have hex' : excluded0.isEmpty = false := by simpa using hex
      have hexc : filter_words_by_exclusion [target] excluded0 = [target] := by
        unfold filter_words_by_exclusion
        rw [List.filter_eq_self]
        intro a ha
        rw [List.mem_singleton] at ha
        subst ha
        simp only [decide_eq_true_eq, List.any_eq_true, not_exists, not_and]
        intro c hc
        simpa using hdisj c hc
      simp [hex', hexc, sort_by_frequency, apply_limit]

/-- Witness for C5 amended: prior required letters с and е (both in the
target), prior forbidden з; guessing the target адрес with an all-Correct
verdict pins адрес and then filtering {запас, адрес} returns exactly
{адрес}. -/
theorem round_trip_amended_witness :
    (update_state (wrd "_____") (wrd "се") (wrd "з")
      ((wrd "адрес").map (fun c => ('+', c)))).1 = wrd "адрес" ∧
    ∃ stats, find_words [wrd "запас", wrd "адрес"]
        (update_state (wrd "_____") (wrd "се") (wrd "з")
          ((wrd "адрес").map (fun c => ('+', c)))).1
        (update_state (wrd "_____") (wrd "се") (wrd "з")
          ((wrd "адрес").map (fun c => ('+', c)))).2.1
        (update_state (wrd "_____") (wrd "се") (wrd "з")
          ((wrd "адрес").map (fun c => ('+', c)))).2.2
        true none = Except.ok ([wrd "адрес"], stats) :=
  round_trip_amended [wrd "запас", wrd "адрес"] (wrd "_____") (wrd "се")
    (wrd "з") (wrd "адрес") rfl rfl (by decide) (by decide) (by decide)
    (by decide) (by decide)

/-- Witness for C2, the spec's running example with required а and
forbidden з over the dictionary {адрес, запас, образ}. -/
theorem find_words_inclusion_witness :
    ∃ res stats,
      find_words [wrd "адрес", wrd "запас", wrd "образ"] (wrd "_____") (wrd "а")
        (wrd "з") true none = Except.ok (res, stats) ∧
      ∀ w, w ∈ res ↔ (w ∈ [wrd "адрес", wrd "запас", wrd "образ"] ∧
        matchesPattern (wrd "_____") w = true ∧
        (∀ c ∈ wrd "а", (wrd "а").count c ≤ w.count c) ∧
        ∀ c ∈ w, c ∉ wrd "з") :=
  find_words_inclusion_spec [wrd "адрес", wrd "запас", wrd "образ"]
    (wrd "_____") (wrd "а") (wrd "з") true rfl (by decide) (by decide)
    (by decide) (by decide) (by decide) (by decide)

end WordleHelper
